import Mathlib

/-!
# glamscan: the scan-dispatch engine

A shallow embedding of `worker.go` (the INSTREAM wire codec of
`ClamWorker.Process`, the worker accept loop and the dispatcher) and of
`scanner.go` (the walk callback, the verdict waiter and the cycle loop of
`ClamScanner.Start`), with the properties of each.

Bytes are natural numbers, Go strings are lists of characters, and every
input/output outcome the code branches on is an explicit input of the model.
-/

namespace Glamscan

/-! ## worker.go: verdicts and the wire codec -/

/-- The verdict type `ClamResult` of worker.go. -/
inductive ClamResult where
  | ClamOK
  | ClamFOUND
  | ClamERR
  deriving DecidableEq, Repr

/-- The error of one `file.Read`: `io.EOF` or any other error. -/
inductive ReadErr where
  | eof
  | other
  deriving DecidableEq, Repr

/-- The outcome `(readSize, err)` of one `file.Read(buffer)`: `bytes` is
`buffer[0:readSize]`, so `readSize` is `bytes.length`. -/
structure ReadOutcome where
  bytes : List Nat
  err : Option ReadErr
  deriving DecidableEq, Repr

/-- Everything `ClamWorker.Process` observes from outside: whether `os.Open`
succeeds, the outcome of the k-th `file.Read`, whether the j-th write call on
the connection succeeds, and the result of `ReadString` (`none` is an error). -/
structure ProcessEnv where
  openOk : Bool
  reads : Nat → ReadOutcome
  writeOk : Nat → Bool
  response : Option (List Char)

/-- What one run of `Process` did: the verdicts sent on `submission.Result`, in
order, and the bytes of the successful writes on the connection, in order. -/
structure ProcessResult where
  sent : List ClamResult
  wire : List Nat
  deriving DecidableEq, Repr

/-- The size of `buffer` in `Process`. -/
def bufferSize : Nat := 2048

/-- The bytes of `[]byte("nINSTREAM\n")`. -/
def instreamCommand : List Nat := [110, 73, 78, 83, 84, 82, 69, 65, 77, 10]

/-- The four bytes `binary.Write(conn, binary.BigEndian, uint32(n))` writes. -/
def bigEndian32 (n : Nat) : List Nat :=
  let v := n % 2 ^ 32
  [v / 2 ^ 24 % 256, v / 2 ^ 16 % 256, v / 2 ^ 8 % 256, v % 256]

/-- The unsigned integer a big-endian byte sequence denotes. -/
def beValue (bs : List Nat) : Nat :=
  bs.foldl (fun acc b => acc * 256 + b) 0

/-- The substring test `strings.Contains`. -/
def Contains : List Char → List Char → Bool
  | [], sub => sub.isPrefixOf []
  | c :: s, sub => sub.isPrefixOf (c :: s) || Contains s sub

/-- The marker `"FOUND"`. -/
def markerFound : List Char := ['F', 'O', 'U', 'N', 'D']

/-- The marker `"ERROR"`. -/
def markerError : List Char := ['E', 'R', 'R', 'O', 'R']

/-- How the `for` loop of `Process` ends when it ends: at `io.EOF` (with the
index of the next write call and the bytes written so far) or on a failure,
after which `Process` sends `ClamERR` and returns. -/
inductive LoopExit where
  | atEOF (nextWrite : Nat) (wire : List Nat)
  | failed (wire : List Nat)
  deriving DecidableEq, Repr

/-- The `for` loop of `Process` (worker.go 218-241), started at read call `k`
and write call `j`. `none` means the fuel ran out before the loop ended. -/
def streamLoop (env : ProcessEnv) : Nat → Nat → Nat → List Nat → Option LoopExit
  | 0, _, _, _ => none
  | fuel + 1, k, j, wire =>
    match (env.reads k).err with
    | some ReadErr.eof => some (LoopExit.atEOF j wire)
    | some ReadErr.other => some (LoopExit.failed wire)
    | none =>
      let readSize := (env.reads k).bytes.length
      if readSize > 0 then
        if env.writeOk j then
          if env.writeOk (j + 1) then
            streamLoop env fuel (k + 1) (j + 2)
              (wire ++ bigEndian32 readSize ++ (env.reads k).bytes)
          else some (LoopExit.failed (wire ++ bigEndian32 readSize))
        else some (LoopExit.failed wire)
      else streamLoop env fuel (k + 1) j wire

/-- The classification of the response line (worker.go 252-261). -/
def classify (data : List Char) : ClamResult :=
  if Contains data markerFound then ClamResult.ClamFOUND
  else if Contains data markerError then ClamResult.ClamERR
  else ClamResult.ClamOK

/-- The body of `ClamWorker.Process` (worker.go 196-262). The error of
`w.Connect()` (line 197) is discarded by the code: a failed connect shows as
failing writes and a failing response read. The result of the terminator write
(line 243) is discarded too, so a failed terminator write only leaves its bytes
out of `wire`. `none` means the read loop was still running when the fuel ran
out. -/
def Process (env : ProcessEnv) (fuel : Nat) : Option ProcessResult :=
  if env.openOk = false then some ⟨[ClamResult.ClamERR], []⟩
  else if env.writeOk 0 = false then some ⟨[ClamResult.ClamERR], []⟩
  else
    match streamLoop env fuel 0 1 instreamCommand with
    | none => none
    | some (LoopExit.failed wire) => some ⟨[ClamResult.ClamERR], wire⟩
    | some (LoopExit.atEOF j wire) =>
      let wire1 := if env.writeOk j then wire ++ bigEndian32 0 else wire
      match env.response with
      | none => some ⟨[ClamResult.ClamERR], wire1⟩
      | some data => some ⟨[classify data], wire1⟩

/-- The reads of a regular file holding `content`, each read filling the
buffer as far as the file goes: read `k` returns the bytes from offset
`2048 * k`, and `io.EOF` with no bytes once the offset reaches the end. -/
def chunkAt (content : List Nat) (k : Nat) : List Nat :=
  (content.drop (bufferSize * k)).take bufferSize

/-- The read outcomes of a file holding `content` read in full chunks. -/
def fileReads (content : List Nat) (k : Nat) : ReadOutcome :=
  if chunkAt content k = [] then ⟨[], some ReadErr.eof⟩ else ⟨chunkAt content k, none⟩

/-- One data frame: the length prefix, then the bytes. -/
def frame (chunk : List Nat) : List Nat :=
  bigEndian32 chunk.length ++ chunk

/-- The chunks of a file of `content`, in file order. -/
def chunks (content : List Nat) : List (List Nat) :=
  (List.range ((content.length + (bufferSize - 1)) / bufferSize)).map (chunkAt content)

/-! ## scanner.go: the walk callback, the verdict waiter and the cycle loop -/

/-- The part of `os.FileInfo` the walk callback reads: `IsDir()`, `Size()` and
`ModTime().String()`. -/
structure FileInfo where
  isDir : Bool
  size : Int
  modTime : String
  deriving DecidableEq, Repr

/-- The two buckets of the bolt database: "files" maps a path to a modification
time string, "viruses" maps a path to a digest. `none` is a key that is absent
(`bucket.Get` returns nil). -/
structure Store where
  files : String → Option String
  viruses : String → Option (List Nat)

/-- The per-cycle state the walk callback changes: the `skipped` counter
(a uint64) and the submissions made so far, each the `(path, modificationTime)`
pair its waiter closure holds; `wg.Add(1)` is called once per submission. -/
structure CycleState where
  skipped : Nat
  submitted : List (String × String)
  deriving DecidableEq, Repr

/-- What one call of the walk callback does to the caller: returns `nil`,
returns the sentinel `END`, returns the traversal error it was given, or
panics on a nil `os.FileInfo`. -/
inductive WalkFnResult where
  | nil
  | END
  | error (e : String)
  | panic
  deriving DecidableEq, Repr

/-- `skipped++` on a uint64. -/
def incr64 (n : Nat) : Nat := (n + 1) % 2 ^ 64

/-- The walk callback (scanner.go 74-150) up to the point where the waiter
goroutine is spawned. `size` is `c.size`, `quit` is the value
`atomic.LoadInt32(&c.quit)` returns, `db` is the store the `View` transaction
reads. `info = none` is a nil `os.FileInfo`: line 75 calls `info.IsDir()`
before `err` is looked at. -/
def walkFn (size : Int) (quit : Int) (db : Store) (st : CycleState)
    (path : String) (info : Option FileInfo) (err : Option String) :
    CycleState × WalkFnResult :=
  match info with
  | none => (st, WalkFnResult.panic)
  | some info =>
    if info.isDir then (st, WalkFnResult.nil)
    else if info.size > size then
      ({ st with skipped := incr64 st.skipped }, WalkFnResult.nil)
    else
      match err with
      | some e => (st, WalkFnResult.error e)
      | none =>
        if quit ≠ 0 then (st, WalkFnResult.END)
        else
          let modificationTime := info.modTime
          let found :=
            match db.files path with
            | some value => decide (value = modificationTime)
            | none => false
          if found then ({ st with skipped := incr64 st.skipped }, WalkFnResult.nil)
          else
            ({ st with submitted := st.submitted ++ [(path, modificationTime)] },
              WalkFnResult.nil)

/-- The per-cycle counters the waiters add to atomically. -/
structure Counters where
  okFiles : Nat
  errored : Nat
  found : Nat
  deriving DecidableEq, Repr

/-- What one verdict waiter leaves behind: the store, the counters, and whether
it spawned `c.Clean(path)`. -/
structure WaiterEffect where
  store : Store
  counters : Counters
  cleanSpawned : Bool

/-- The verdict waiter (scanner.go 109-147) for the submission of `path` whose
closure holds `modificationTime`. `md5` is the result of `md5File(path)`;
`commitOk` says whether bolt accepts the `Put` and the commit of the `Update`
transaction. A transaction whose function returns an error, or that bolt does
not commit, leaves the store as it was; the waiter then only logs. -/
def waiter (db : Store) (cnt : Counters) (path modificationTime : String)
    (result : ClamResult) (md5 : Except String (List Nat)) (commitOk : Bool) :
    WaiterEffect :=
  match result with
  | ClamResult.ClamOK =>
    let cnt1 := { cnt with okFiles := incr64 cnt.okFiles }
    if commitOk then
      ⟨{ db with files := Function.update db.files path (some modificationTime) }, cnt1, false⟩
    else ⟨db, cnt1, false⟩
  | ClamResult.ClamERR => ⟨db, { cnt with errored := incr64 cnt.errored }, false⟩
  | ClamResult.ClamFOUND =>
    let cnt1 := { cnt with found := incr64 cnt.found }
    match md5 with
    | Except.error _ => ⟨db, cnt1, true⟩
    | Except.ok hash =>
      if commitOk then
        ⟨{ db with viruses := Function.update db.viruses path (some hash) }, cnt1, true⟩
      else ⟨db, cnt1, true⟩

/-- One entry as `filepath.Walk` hands it to the callback. -/
structure Entry where
  path : String
  info : Option FileInfo
  err : Option String
  deriving DecidableEq, Repr

/-- The actions of the orchestrator goroutine that other goroutines can
observe, in the order it performs them. -/
inductive Action where
  | logBegin
  | spawnWaiter (path : String)
  | logWalkError
  | waitWaiters
  | report
  | wokenByQuitting
  | wokenByTimer
  | signalDone
  | panic
  deriving DecidableEq, Repr

/-- The moment within one iteration of the cycle loop at which `Stop()` stores
the flag and sends on `c.quitting`: before the k-th callback call of the walk,
or while the loop is in its `select`. -/
inductive StopPoint where
  | beforeVisit (k : Nat)
  | duringSleep
  deriving DecidableEq, Repr

/-- The flag as the k-th callback call of an iteration loads it: `quit` is its
value when the iteration starts. -/
def quitAt (quit : Int) (stop : Option StopPoint) (k : Nat) : Int :=
  match stop with
  | some (StopPoint.beforeVisit j) => if j ≤ k then 1 else quit
  | _ => quit

/-- `filepath.Walk` over the entries in visit order, from the k-th on: it calls
the callback on each and returns at the first result that is not `nil`. The
callback never returns `SkipDir`. -/
def Walk (size : Int) (quit : Int) (stop : Option StopPoint) (db : Store) :
    List Entry → Nat → CycleState → CycleState × WalkFnResult
  | [], _, st => (st, WalkFnResult.nil)
  | e :: es, k, st =>
    match walkFn size (quitAt quit stop k) db st e.path e.info e.err with
    | (st1, WalkFnResult.nil) => Walk size quit stop db es (k + 1) st1
    | (st1, r) => (st1, r)

/-- The state the cycle loop carries from one iteration to the next: the flag
`c.quit` and whether a value is buffered in `c.quitting`. -/
structure LoopState where
  quit : Int
  quitting : Bool
  deriving DecidableEq, Repr

/-- One iteration of the `for` loop of `ClamScanner.Start` (scanner.go 63-177).
The result is the actions performed and the state of the next iteration, or
`none` when the goroutine has returned (or panicked). One waiter is spawned per
submission of the walk, in order. `Stop()` is called at most once, at `stop`:
it stores 1 in the flag and then buffers a value in `c.quitting`. The `select`
takes a buffered value if there is one or if one arrives during the sleep, and
otherwise ends when the timer fires. -/
def iteration (size : Int) (db : Store) (entries : List Entry)
    (stop : Option StopPoint) (s : LoopState) : List Action × Option LoopState :=
  let begin := if s.quit = 0 then [Action.logBegin] else []
  let walked := Walk size s.quit stop db entries 0 ⟨0, []⟩
  let acts := begin ++ walked.1.submitted.map (fun job => Action.spawnWaiter job.1)
  match walked.2 with
  | WalkFnResult.END => (acts ++ [Action.signalDone], none)
  | WalkFnResult.panic => (acts ++ [Action.panic], none)
  | r =>
    let logged := if r = WalkFnResult.nil then [] else [Action.logWalkError]
    let acts1 := acts ++ logged ++ [Action.waitWaiters, Action.report]
    match stop with
    | some (StopPoint.beforeVisit _) =>
      (acts1 ++ [Action.wokenByQuitting], some ⟨1, s.quitting⟩)
    | some StopPoint.duringSleep =>
      (acts1 ++ [Action.wokenByQuitting], some ⟨1, s.quitting⟩)
    | none =>
      if s.quitting then (acts1 ++ [Action.wokenByQuitting], some ⟨s.quit, false⟩)
      else (acts1 ++ [Action.wokenByTimer], some ⟨s.quit, false⟩)

/-- The goroutine of `ClamScanner.Start` run for at most `fuel` iterations from
iteration `i`: `stops i` is the stop request arriving within iteration `i`,
`db i` the store its walk reads. The result is every action performed. -/
def Start (size : Int) (db : Nat → Store) (entries : List Entry)
    (stops : Nat → Option StopPoint) : Nat → Nat → LoopState → List Action
  | 0, _, _ => []
  | fuel + 1, i, s =>
    match iteration size (db i) entries (stops i) s with
    | (acts, none) => acts
    | (acts, some s1) => acts ++ Start size db entries stops fuel (i + 1) s1

/-! ## worker.go: the dispatcher and the worker accept loop -/

/-- Where a worker goroutine stands in the loop of `ClamWorker.Start`
(worker.go 172-187): about to send its channel on `w.ready` (line 176), in the
`select` (177-184), inside `w.Process` with a job (179), or returned (183). -/
inductive WorkerPc where
  | registering
  | waiting
  | processing (job : String)
  | stopped
  deriving DecidableEq, Repr

/-- Where the dispatcher goroutine stands in `ScanQueue.dispatch`
(worker.go 103-120): in the `select` (106), holding a job and about to receive
from `q.ready` (108), holding a job and the channel of worker `h` and about to
send on it (109), about to call `q.workers[i].Stop()` (112-114), or returned. -/
inductive DispatcherPc where
  | selecting
  | checkout (job : String)
  | handoff (job : String) (h : Nat)
  | stopping (i : Nat)
  | stopped
  deriving DecidableEq, Repr

/-- The state of the queue: the place of every worker, the contents of the
buffered channels `q.ready` (channels of workers, named by worker index) and
`q.internal`, the place of the dispatcher, and per worker the number of jobs
handed to it that it has not finished (a busy counter kept for the proofs). -/
structure QueueState where
  workers : Nat → WorkerPc
  ready : List Nat
  internal : List String
  dispatcher : DispatcherPc
  busy : Nat → Nat

/-- The atomic steps of the goroutines. A send on an unbuffered channel and the
matching receive are one step. -/
inductive QStep where
  | submit (job : String)
  | takeJob
  | takeQuit
  | checkoutWorker
  | handoff
  | stopWorker
  | finishStop
  | register (i : Nat)
  | finish (i : Nat)
  deriving DecidableEq, Repr

/-- The state after `NewScanQueue` and `ScanQueue.Start`. -/
def qinit : QueueState :=
  ⟨fun _ => WorkerPc.registering, [], [], DispatcherPc.selecting, fun _ => 0⟩

/-- One step of the queue with `n` workers; `none` when the step cannot be
taken in this state (the goroutine is elsewhere, or the channel operation
blocks). -/
def qstep (n : Nat) (s : QueueState) : QStep → Option QueueState
  | QStep.submit job =>
    if s.internal.length < n then some { s with internal := s.internal ++ [job] }
    else none
  | QStep.takeJob =>
    match s.dispatcher, s.internal with
    | DispatcherPc.selecting, job :: rest =>
      some { s with internal := rest, dispatcher := DispatcherPc.checkout job }
    | _, _ => none
  | QStep.takeQuit =>
    match s.dispatcher with
    | DispatcherPc.selecting => some { s with dispatcher := DispatcherPc.stopping 0 }
    | _ => none
  | QStep.checkoutWorker =>
    match s.dispatcher, s.ready with
    | DispatcherPc.checkout job, h :: rest =>
      some { s with ready := rest, dispatcher := DispatcherPc.handoff job h }
    | _, _ => none
  | QStep.handoff =>
    match s.dispatcher with
    | DispatcherPc.handoff job h =>
      if s.workers h = WorkerPc.waiting then
        some { s with
          workers := Function.update s.workers h (WorkerPc.processing job)
          busy := Function.update s.busy h (s.busy h + 1)
          dispatcher := DispatcherPc.selecting }
      else none
    | _ => none
  | QStep.stopWorker =>
    match s.dispatcher with
    | DispatcherPc.stopping i =>
      if i < n ∧ s.workers i = WorkerPc.waiting then
        some { s with
          workers := Function.update s.workers i WorkerPc.stopped
          dispatcher := DispatcherPc.stopping (i + 1) }
      else none
    | _ => none
  | QStep.finishStop =>
    match s.dispatcher with
    | DispatcherPc.stopping i =>
      if i = n then some { s with dispatcher := DispatcherPc.stopped } else none
    | _ => none
  | QStep.register i =>
    if i < n ∧ s.workers i = WorkerPc.registering ∧ s.ready.length < n then
      some { s with
        workers := Function.update s.workers i WorkerPc.waiting
        ready := s.ready ++ [i] }
    else none
  | QStep.finish i =>
    match s.workers i with
    | WorkerPc.processing _ =>
      some { s with
        workers := Function.update s.workers i WorkerPc.registering
        busy := Function.update s.busy i (s.busy i - 1) }
    | _ => none

/-- The state a schedule of steps leads to, `none` if one of them cannot be
taken. -/
def qrun (n : Nat) : QueueState → List QStep → Option QueueState
  | s, [] => some s
  | s, a :: rest =>
    match qstep n s a with
    | some s1 => qrun n s1 rest
    | none => none

/-- Whether a worker is inside `w.Process`. -/
def WorkerPc.isProcessing : WorkerPc → Bool
  | WorkerPc.processing _ => true
  | _ => false

/-- The invariant of the queue: no worker's channel is twice in `q.ready`; a
worker whose channel is in `q.ready` is in its `select` (or has returned from
it on `quit`); the channel the dispatcher holds is no longer in `q.ready` and
its worker is in its `select`; a worker has returned only once the dispatcher
is in its quit branch; and a worker's busy counter is 1 inside `w.Process` and
0 elsewhere. -/
def QInv (s : QueueState) : Prop :=
  s.ready.Nodup ∧
  (∀ i ∈ s.ready, s.workers i = WorkerPc.waiting ∨ s.workers i = WorkerPc.stopped) ∧
  (∀ job h, s.dispatcher = DispatcherPc.handoff job h →
    h ∉ s.ready ∧ s.workers h = WorkerPc.waiting) ∧
  (∀ i, s.workers i = WorkerPc.stopped →
    (∃ k, s.dispatcher = DispatcherPc.stopping k) ∨ s.dispatcher = DispatcherPc.stopped) ∧
  (∀ i, s.busy i = if (s.workers i).isProcessing then 1 else 0)

/-- A schedule with two workers: both register, two jobs are submitted and
handed out one after the other, and the first worker finishes and registers
again. -/
def sampleSchedule : List QStep :=
  [QStep.register 0, QStep.register 1, QStep.submit "/watched/a", QStep.submit "/watched/b",
   QStep.takeJob, QStep.checkoutWorker, QStep.handoff,
   QStep.takeJob, QStep.checkoutWorker, QStep.handoff,
   QStep.finish 0, QStep.register 0]

/-! ## Concrete inputs -/

/-- A store with both buckets empty. -/
def emptyStore : Store := ⟨fun _ => none, fun _ => none⟩

/-- A store whose "files" bucket records `/watched/a` as clean at modification
time `t1`. -/
def cleanStore : Store :=
  ⟨fun p => if p = "/watched/a" then some "t1" else none, fun _ => none⟩

/-- A file of 2049 bytes, read in full chunks, on a connection where every
write succeeds and the daemon answers `stream: OK`. -/
def twoChunkEnv : ProcessEnv :=
  ⟨true, fileReads (List.replicate 2049 7), fun _ => true, some "stream: OK\n".toList⟩

/-- An empty file on a connection where the command write succeeds, every later
write fails, and the read of the response succeeds with `stream: OK`. -/
def terminatorFailsEnv : ProcessEnv :=
  ⟨true, fun _ => ⟨[], some ReadErr.eof⟩, fun j => decide (j = 0),
    some "stream: OK\n".toList⟩

/-- A file whose first read returns two bytes and whose second read fails
with an error other than `io.EOF`; the length prefix is written, the write of
the data fails. -/
def readErrorEnv : ProcessEnv :=
  ⟨true, fun k => if k = 0 then ⟨[1, 2], none⟩ else ⟨[], some ReadErr.other⟩,
    fun j => decide (j ≠ 2), none⟩

/-- A directory holding two small regular files. -/
def twoFileTree : List Entry :=
  [⟨"/watched", some ⟨true, 4096, "t0"⟩, none⟩,
   ⟨"/watched/a", some ⟨false, 10, "t1"⟩, none⟩,
   ⟨"/watched/b", some ⟨false, 20, "t2"⟩, none⟩]

/-- A root directory with nothing in it. -/
def emptyTree : List Entry :=
  [⟨"/watched", some ⟨true, 4096, "t0"⟩, none⟩]

/-- A stop request that arrives during the sleep of the first iteration. -/
def stopInFirstSleep (i : Nat) : Option StopPoint :=
  if i = 0 then some StopPoint.duringSleep else none

/-! ## Properties of the wire codec -/

theorem chunkAt_length (content : List Nat) (k : Nat) :
    (chunkAt content k).length = min bufferSize (content.length - bufferSize * k) := by
  simp [chunkAt]

theorem chunkAt_eq_nil_iff (content : List Nat) (k : Nat) :
    chunkAt content k = [] ↔ content.length ≤ bufferSize * k := by
  rw [← List.length_eq_zero, chunkAt_length]
  simp only [bufferSize]
  omega

theorem join_chunks_prefix (content : List Nat) (m : Nat) :
    ((List.range m).map (chunkAt content)).flatten = content.take (bufferSize * m) := by
  induction m with
  | zero => simp
  | succ m ih =>
    rw [List.range_succ, List.map_append, List.flatten_append, ih, Nat.mul_succ, List.take_add]
    simp [chunkAt]

theorem streamLoop_fileReads (content : List Nat) (env : ProcessEnv)
    (hwrite : ∀ j, env.writeOk j = true) (hreads : env.reads = fileReads content) :
    ∀ (m k j : Nat) (wire : List Nat) (fuel : Nat),
      k + m = (content.length + (bufferSize - 1)) / bufferSize → m < fuel →
      streamLoop env fuel k j wire
        = some (LoopExit.atEOF (j + 2 * m)
            (wire ++ ((List.range' k m).map (fun i => frame (chunkAt content i))).flatten)) := by
  intro m
  induction m with
  | zero =>
    intro k j wire fuel hk hfuel
    obtain ⟨f, rfl⟩ : ∃ f, fuel = f + 1 := ⟨fuel - 1, by omega⟩
    have hnil : chunkAt content k = [] := by
      rw [chunkAt_eq_nil_iff]
      simp only [bufferSize] at hk ⊢
      omega
    simp [streamLoop, hreads, fileReads, hnil]
  | succ m ih =>
    intro k j wire fuel hk hfuel
    obtain ⟨f, rfl⟩ : ∃ f, fuel = f + 1 := ⟨fuel - 1, by omega⟩
    have hne : chunkAt content k ≠ [] := by
      rw [Ne, chunkAt_eq_nil_iff]
      simp only [bufferSize] at hk ⊢
      omega
    have hpos : 0 < (chunkAt content k).length := List.length_pos.mpr hne
    have hrec := ih (k + 1) (j + 2)
      (wire ++ bigEndian32 (chunkAt content k).length ++ chunkAt content k) f
      (by omega) (by omega)
    simp only [streamLoop, hreads, fileReads, hne, if_false, hwrite, if_true, hpos,
      gt_iff_lt]
    rw [hrec, List.range'_succ]
    simp [frame, Nat.mul_succ, Nat.add_assoc, Nat.add_comm 2]

theorem beValue_bigEndian32 (n : Nat) (h : n < 2 ^ 32) :
    beValue (bigEndian32 n) = n := by
  simp only [beValue, bigEndian32, List.foldl]
  omega

theorem chunks_flatten (content : List Nat) : (chunks content).flatten = content := by
  rw [chunks, join_chunks_prefix]
  apply List.take_of_length_le
  simp only [bufferSize]
  omega

theorem chunks_bounds (content : List Nat) (c : List Nat) (hc : c ∈ chunks content) :
    0 < c.length ∧ c.length ≤ bufferSize := by
  simp only [chunks, List.mem_map, List.mem_range] at hc
  obtain ⟨k, hk, rfl⟩ := hc
  rw [chunkAt_length]
  simp only [bufferSize] at hk ⊢
  omega

theorem bigEndian32_small (n : Nat) (h : n < 2 ^ 32) :
    bigEndian32 n = [n / 2 ^ 24 % 256, n / 2 ^ 16 % 256, n / 2 ^ 8 % 256, n % 256] := by
  simp only [bigEndian32, Nat.mod_eq_of_lt h]

/-- C1: for a file of `content` read in full 2048-byte chunks, with the file
opened and every write succeeding, `Process` returns (given fuel beyond the
number of chunks) and the bytes it wrote are the ten bytes of the command
`nINSTREAM\n`, then one frame per chunk in file order, then the four zero bytes
of the terminator. The chunks are `ceil(S/2048)` many, the i-th being the
2048 bytes of the content from offset `2048 * i` (fewer for the last), each
non-empty and at most 2048 bytes long, and they concatenate to the content.
Each frame is four bytes followed by the chunk; the four bytes are each below
256 and are the big-endian digits of the chunk's length. An empty file yields
the command and the terminator only. -/
theorem Process_wire_framing (content : List Nat) (env : ProcessEnv) (fuel : Nat)
    (hopen : env.openOk = true) (hwrite : ∀ j, env.writeOk j = true)
    (hreads : env.reads = fileReads content)
    (hfuel : (chunks content).length < fuel) :
    ∃ r, Process env fuel = some r ∧
      r.wire = "nINSTREAM\n".toList.map Char.toNat
        ++ ((chunks content).map frame).flatten ++ [0, 0, 0, 0] ∧
      r.wire = [110, 73, 78, 83, 84, 82, 69, 65, 77, 10]
        ++ ((List.range ((content.length + 2047) / 2048)).map
            (fun i =>
              [((content.drop (2048 * i)).take 2048).length / 2 ^ 24 % 256,
               ((content.drop (2048 * i)).take 2048).length / 2 ^ 16 % 256,
               ((content.drop (2048 * i)).take 2048).length / 2 ^ 8 % 256,
               ((content.drop (2048 * i)).take 2048).length % 256]
              ++ (content.drop (2048 * i)).take 2048)).flatten
        ++ [0, 0, 0, 0] ∧
      (chunks content).length = (content.length + 2047) / 2048 ∧
      (chunks content).flatten = content ∧
      chunks content = (List.range ((content.length + 2047) / 2048)).map
        (fun i => (content.drop (2048 * i)).take 2048) ∧
      (∀ c ∈ chunks content,
        0 < c.length ∧ c.length ≤ 2048 ∧
        frame c = [c.length / 2 ^ 24 % 256, c.length / 2 ^ 16 % 256,
          c.length / 2 ^ 8 % 256, c.length % 256] ++ c ∧
        (∀ b ∈ (frame c).take 4, b < 256) ∧
        c.length / 2 ^ 24 % 256 * 2 ^ 24 + c.length / 2 ^ 16 % 256 * 2 ^ 16
          + c.length / 2 ^ 8 % 256 * 2 ^ 8 + c.length % 256 = c.length ∧
        frame c = bigEndian32 c.length ++ c ∧
        (bigEndian32 c.length).length = 4 ∧
        (∀ b ∈ bigEndian32 c.length, b < 256) ∧
        beValue (bigEndian32 c.length) = c.length) ∧
      (content = [] → r.wire = [110, 73, 78, 83, 84, 82, 69, 65, 77, 10, 0, 0, 0, 0]) := by
  have hlen : (chunks content).length = (content.length + 2047) / 2048 := by
    simp [chunks, bufferSize]
  have hloop := streamLoop_fileReads content env hwrite hreads
    ((content.length + (bufferSize - 1)) / bufferSize) 0 1 instreamCommand fuel
    (by omega) (by simpa [chunks] using hfuel)
  have hmap : (List.range' 0 ((content.length + (bufferSize - 1)) / bufferSize)).map
      (fun i => frame (chunkAt content i)) = (chunks content).map frame := by
    simp [chunks, List.range_eq_range']
  rw [hmap] at hloop
  have hterm : bigEndian32 0 = [0, 0, 0, 0] := by decide
  have hcmd : "nINSTREAM\n".toList.map Char.toNat = instreamCommand := by decide
  have hcmd2 : [110, 73, 78, 83, 84, 82, 69, 65, 77, 10] = instreamCommand := rfl
  have hchunks : chunks content = (List.range ((content.length + 2047) / 2048)).map
      (fun i => (content.drop (2048 * i)).take 2048) := rfl
  have hframe : ∀ c ∈ chunks content, frame c
      = [c.length / 2 ^ 24 % 256, c.length / 2 ^ 16 % 256,
          c.length / 2 ^ 8 % 256, c.length % 256] ++ c := by
    intro c hc
    have hb := chunks_bounds content c hc
    simp only [bufferSize] at hb
    rw [frame, bigEndian32_small _ (by omega)]
  have hframes : ((chunks content).map frame).flatten
      = ((List.range ((content.length + 2047) / 2048)).map
            (fun i =>
              [((content.drop (2048 * i)).take 2048).length / 2 ^ 24 % 256,
               ((content.drop (2048 * i)).take 2048).length / 2 ^ 16 % 256,
               ((content.drop (2048 * i)).take 2048).length / 2 ^ 8 % 256,
               ((content.drop (2048 * i)).take 2048).length % 256]
              ++ (content.drop (2048 * i)).take 2048)).flatten := by
    congr 1
    rw [hchunks, List.map_map]
    apply List.map_congr_left
    intro i hi
    have hmem : (content.drop (2048 * i)).take 2048 ∈ chunks content := by
      rw [hchunks]
      exact List.mem_map.mpr ⟨i, hi, rfl⟩
    exact hframe _ hmem
  have hper : ∀ c ∈ chunks content,
      0 < c.length ∧ c.length ≤ 2048 ∧
      frame c = [c.length / 2 ^ 24 % 256, c.length / 2 ^ 16 % 256,
        c.length / 2 ^ 8 % 256, c.length % 256] ++ c ∧
      (∀ b ∈ (frame c).take 4, b < 256) ∧
      c.length / 2 ^ 24 % 256 * 2 ^ 24 + c.length / 2 ^ 16 % 256 * 2 ^ 16
        + c.length / 2 ^ 8 % 256 * 2 ^ 8 + c.length % 256 = c.length ∧
      frame c = bigEndian32 c.length ++ c ∧
      (bigEndian32 c.length).length = 4 ∧
      (∀ b ∈ bigEndian32 c.length, b < 256) ∧
      beValue (bigEndian32 c.length) = c.length := by
    intro c hc
    have hb := chunks_bounds content c hc
    simp only [bufferSize] at hb
    have hbytes : ∀ b ∈ bigEndian32 c.length, b < 256 := by
      intro b hbm
      simp only [bigEndian32, List.mem_cons, List.mem_singleton, List.not_mem_nil,
        or_false] at hbm
      rcases hbm with e | e | e | e <;> rw [e] <;> exact Nat.mod_lt _ (by decide)
    refine ⟨hb.1, hb.2, hframe c hc, ?_, by omega, rfl, by simp [bigEndian32], hbytes,
      beValue_bigEndian32 _ (by omega)⟩
    intro b hbm
    have htake : (frame c).take 4 = bigEndian32 c.length := by
      simp [frame, bigEndian32]
    rw [htake] at hbm
    exact hbytes b hbm
  have hempty : content = [] →
      instreamCommand ++ ((chunks content).map frame).flatten ++ bigEndian32 0
        = [110, 73, 78, 83, 84, 82, 69, 65, 77, 10, 0, 0, 0, 0] := by
    intro hnil
    subst hnil
    decide
  cases hresp : env.response with
  | none =>
    refine ⟨⟨[ClamResult.ClamERR],
      instreamCommand ++ ((chunks content).map frame).flatten ++ bigEndian32 0⟩,
      ?_, ?_, ?_, hlen, chunks_flatten content, hchunks, hper, hempty⟩
    · simp [Process, hopen, hwrite, hloop, hresp]
    · rw [hcmd, hterm]
    · rw [hcmd2, hterm, hframes]
  | some data =>
    refine ⟨⟨[classify data],
      instreamCommand ++ ((chunks content).map frame).flatten ++ bigEndian32 0⟩,
      ?_, ?_, ?_, hlen, chunks_flatten content, hchunks, hper, hempty⟩
    · simp [Process, hopen, hwrite, hloop, hresp]
    · rw [hcmd, hterm]
    · rw [hcmd2, hterm, hframes]

/-! ## Properties of the response classification -/

theorem streamLoop_terminates (env : ProcessEnv) (n : Nat)
    (hend : (env.reads n).err ≠ none) :
    ∀ (fuel k j : Nat) (wire : List Nat), k ≤ n → n - k < fuel →
      ∃ e, streamLoop env fuel k j wire = some e := by
  intro fuel
  induction fuel with
  | zero => intro k j wire _ h; omega
  | succ f ih =>
    intro k j wire hk hf
    unfold streamLoop
    cases herr : (env.reads k).err with
    | some e => cases e <;> simp
    | none =>
      have hkn : k ≠ n := by
        rintro rfl
        exact hend herr
      simp only
      split
      · split
        · split
          · exact ih _ _ _ (by omega) (by omega)
          · exact ⟨_, rfl⟩
        · exact ⟨_, rfl⟩
      · exact ih _ _ _ (by omega) (by omega)

theorem streamLoop_fuel_mono (env : ProcessEnv) :
    ∀ (fuel k j : Nat) (wire : List Nat) (e : LoopExit) (d : Nat),
      streamLoop env fuel k j wire = some e →
      streamLoop env (fuel + d) k j wire = some e := by
  intro fuel
  induction fuel with
  | zero => intro k j wire e d h; simp [streamLoop] at h
  | succ f ih =>
    intro k j wire e d h
    rw [Nat.add_right_comm]
    unfold streamLoop at h ⊢
    cases herr : (env.reads k).err with
    | some r => cases r <;> simpa [herr] using h
    | none =>
      simp only [herr] at h ⊢
      split at h
      · rename_i h1
        rw [if_pos h1]
        split at h
        · rename_i h2
          rw [if_pos h2]
          split at h
          · rename_i h3
            rw [if_pos h3]
            exact ih _ _ _ _ _ h
          · rename_i h3
            rw [if_neg h3]
            exact h
        · rename_i h2
          rw [if_neg h2]
          exact h
      · rename_i h1
        rw [if_neg h1]
        exact ih _ _ _ _ _ h

theorem Process_fuel_mono (env : ProcessEnv) (fuel d : Nat) (r : ProcessResult)
    (h : Process env fuel = some r) : Process env (fuel + d) = some r := by
  unfold Process at h ⊢
  split
  · simpa [*] using h
  · rename_i h1
    rw [if_neg h1] at h
    split
    · simpa [*] using h
    · rename_i h2
      rw [if_neg h2] at h
      cases hl : streamLoop env fuel 0 1 instreamCommand with
      | none => simp [hl] at h
      | some e =>
        rw [streamLoop_fuel_mono env fuel 0 1 instreamCommand e d hl]
        rw [hl] at h
        exact h

theorem Process_sent_singleton (env : ProcessEnv) (fuel : Nat) (r : ProcessResult)
    (h : Process env fuel = some r) : ∃ v, r.sent = [v] := by
  unfold Process at h
  split at h
  · cases h; exact ⟨_, rfl⟩
  · split at h
    · cases h; exact ⟨_, rfl⟩
    · split at h
      · cases h
      · cases h; exact ⟨_, rfl⟩
      · cases hresp : env.response with
        | none => simp only [hresp] at h; cases h; exact ⟨_, rfl⟩
        | some data => simp only [hresp] at h; cases h; exact ⟨_, rfl⟩

/-- C3: whatever the outcomes of the file open, the file reads, the connection
writes and the response read, a run of `Process` that returns has sent exactly
one verdict on the result channel, and every other run on the same outcomes
that returns (with any fuel) returns the same result; and `Process` does
return: always when the open or the command write fails, and otherwise as soon
as the fuel exceeds the index `n` of a file read that ends the stream with
`io.EOF` or another error. -/
theorem Process_sends_exactly_one (env : ProcessEnv) (fuel : Nat) :
    (∀ r, Process env fuel = some r →
      r.sent.length = 1 ∧ (∃ v, r.sent = [v]) ∧
      ∀ fuel1 r1, Process env fuel1 = some r1 → r1 = r) ∧
    (∀ n, (env.reads n).err ≠ none → n < fuel → ∃ r, Process env fuel = some r) ∧
    (env.openOk = false ∨ env.writeOk 0 = false → ∃ r, Process env fuel = some r) := by
  refine ⟨?_, ?_, ?_⟩
  · intro r hr
    obtain ⟨v, hv⟩ := Process_sent_singleton env fuel r hr
    refine ⟨by simp [hv], ⟨v, hv⟩, ?_⟩
    intro fuel1 r1 h1
    have ha := Process_fuel_mono env fuel fuel1 r hr
    have hb := Process_fuel_mono env fuel1 fuel r1 h1
    rw [Nat.add_comm] at hb
    rw [ha] at hb
    exact (Option.some.inj hb).symm
  · intro n hend hfuel
    unfold Process
    split
    · exact ⟨_, rfl⟩
    · split
      · exact ⟨_, rfl⟩
      · obtain ⟨e, he⟩ := streamLoop_terminates env n hend fuel 0 1 instreamCommand
          (by omega) (by omega)
        rw [he]
        cases e with
        | failed w => exact ⟨_, rfl⟩
        | atEOF j w =>
          cases env.response with
          | none => exact ⟨_, rfl⟩
          | some data => exact ⟨_, rfl⟩
  · intro h
    unfold Process
    rcases h with h | h
    · simp [h]
    · split
      · exact ⟨_, rfl⟩
      · simp [h]

/-! ## Failures of `Process` -/

/-- Every failure that `Process` checks ends in Errored: the file open, the
command write, a failed read or frame write inside the loop, and the read of
the response. -/
theorem Process_checked_failure_ClamERR (env : ProcessEnv) (fuel : Nat) (r : ProcessResult)
    (h : Process env fuel = some r)
    (hfail : env.openOk = false ∨ env.writeOk 0 = false ∨
      (∃ w, streamLoop env fuel 0 1 instreamCommand = some (LoopExit.failed w)) ∨
      env.response = none) :
    r.sent = [ClamResult.ClamERR] := by
  unfold Process at h
  split at h
  · cases h; rfl
  · rename_i h1
    split at h
    · cases h; rfl
    · rename_i h2
      cases hl : streamLoop env fuel 0 1 instreamCommand with
      | none => simp [hl] at h
      | some e =>
        cases e with
        | failed w => simp only [hl] at h; cases h; rfl
        | atEOF j w =>
          rcases hfail with hf | hf | ⟨w1, hf⟩ | hf
          · exact absurd hf h1
          · exact absurd hf h2
          · rw [hl] at hf; cases hf
          · simp only [hl, hf] at h; cases h; rfl

/-- C4, at the failing input: the file is empty, the command write succeeds,
the write of the terminator frame fails and the response `stream: OK` is read.
`Process` does not look at the result of the terminator write and delivers
Clean, not Errored. -/
theorem Process_terminator_write_failure_unchecked :
    terminatorFailsEnv.writeOk 1 = false ∧
    streamLoop terminatorFailsEnv 1 0 1 instreamCommand
      = some (LoopExit.atEOF 1 instreamCommand) ∧
    Process terminatorFailsEnv 1 = some ⟨[ClamResult.ClamOK], instreamCommand⟩ := by
  decide

/-! ## The walk callback -/

/-- C5: for a regular file visited with no traversal error and the flag clear:
above the size ceiling it is counted as skipped (the uint64 counter becomes
`(skipped + 1) mod 2^64`, which is `skipped + 1` for every counter value below
`2^64 - 1`) and not submitted, whatever the "files" bucket holds; within the
ceiling with a record equal to its modification time string it is counted as
skipped in the same way and not submitted; within the ceiling with no record or
a different record it is submitted once (one submission of the path with its
modification time is appended) and the skipped counter is unchanged. In each
case the callback returns nil. -/
theorem walkFn_regular_file (size : Int) (db : Store) (st : CycleState) (path : String)
    (info : FileInfo) (hreg : info.isDir = false) :
    (info.size > size →
      walkFn size 0 db st path (some info) none
        = (⟨(st.skipped + 1) % 2 ^ 64, st.submitted⟩, WalkFnResult.nil) ∧
      (st.skipped + 1 < 2 ^ 64 →
        (walkFn size 0 db st path (some info) none).1.skipped = st.skipped + 1)) ∧
    (info.size ≤ size → db.files path = some info.modTime →
      walkFn size 0 db st path (some info) none
        = (⟨(st.skipped + 1) % 2 ^ 64, st.submitted⟩, WalkFnResult.nil) ∧
      (st.skipped + 1 < 2 ^ 64 →
        (walkFn size 0 db st path (some info) none).1.skipped = st.skipped + 1)) ∧
    (info.size ≤ size → db.files path ≠ some info.modTime →
      walkFn size 0 db st path (some info) none
        = (⟨st.skipped, st.submitted ++ [(path, info.modTime)]⟩, WalkFnResult.nil) ∧
      (walkFn size 0 db st path (some info) none).1.submitted.length
        = st.submitted.length + 1) := by
  refine ⟨?_, ?_, ?_⟩
  · intro h
    have hres : walkFn size 0 db st path (some info) none
        = (⟨(st.skipped + 1) % 2 ^ 64, st.submitted⟩, WalkFnResult.nil) := by
      simp [walkFn, hreg, h, incr64]
    refine ⟨hres, fun hlt => ?_⟩
    rw [hres]
    exact Nat.mod_eq_of_lt hlt
  · intro h hrec
    have h1 : ¬ info.size > size := by omega
    have hres : walkFn size 0 db st path (some info) none
        = (⟨(st.skipped + 1) % 2 ^ 64, st.submitted⟩, WalkFnResult.nil) := by
      simp [walkFn, hreg, h1, hrec, incr64]
    refine ⟨hres, fun hlt => ?_⟩
    rw [hres]
    exact Nat.mod_eq_of_lt hlt
  · intro h hrec
    have h1 : ¬ info.size > size := by omega
    have hres : walkFn size 0 db st path (some info) none
        = (⟨st.skipped, st.submitted ++ [(path, info.modTime)]⟩, WalkFnResult.nil) := by
      cases hget : db.files path with
      | none => simp [walkFn, hreg, h1, hget]
      | some value =>
        have hne : value ≠ info.modTime := by
          rintro rfl
          exact hrec hget
        simp [walkFn, hreg, h1, hget, hne]
    refine ⟨hres, ?_⟩
    rw [hres]
    simp

/-- C9, at the failing input: an entry that could not be stat'ed reaches the
callback with a nil file info and an error; the callback calls `info.IsDir()`
first and panics, whatever the flag, the store and the counters are. -/
theorem walkFn_nil_info_panics (size quit : Int) (db : Store) (st : CycleState)
    (path e : String) :
    walkFn size quit db st path none (some e) = (st, WalkFnResult.panic) := by
  rfl

/-- A traversal error on an entry that is not a directory and is within the
ceiling is returned to `filepath.Walk`, which aborts the walk with it. -/
theorem walkFn_error_aborts (size quit : Int) (db : Store) (st : CycleState)
    (path e : String) (info : FileInfo) (hreg : info.isDir = false)
    (hsize : info.size ≤ size) :
    walkFn size quit db st path (some info) (some e) = (st, WalkFnResult.error e) := by
  have h1 : ¬ info.size > size := by omega
  simp [walkFn, hreg, h1]

/-! ## The verdict waiter -/

/-- C6, as stated, fails: with the verdict Infected and `md5File` failing, no
record of the path is written to the "viruses" bucket; and with the verdict
Clean and an update that bolt does not commit, the "files" record of the path
is not set. -/
theorem waiter_write_not_unconditional :
    (¬ ∃ digest,
      (waiter emptyStore ⟨0, 0, 0⟩ "/watched/a" "t1" ClamResult.ClamFOUND
        (Except.error "open /watched/a: no such file") true).store.viruses "/watched/a"
        = some digest) ∧
    (waiter emptyStore ⟨0, 0, 0⟩ "/watched/a" "t1" ClamResult.ClamOK
        (Except.ok []) false).store.files "/watched/a" ≠ some "t1" := by
  simp [waiter, emptyStore]

/-- C6, amended: what the verdict waiter does to the store. On Clean the
"viruses" bucket and every other "files" record are unchanged, and the "files"
record of the path is the modification time string if bolt commits the update
and unchanged if not. On Errored neither bucket changes. On Infected the
"files" bucket is unchanged and so is every "viruses" record of another path;
the "viruses" record of the path is the digest if `md5File` returns one and
bolt commits the update, and the bucket is unchanged otherwise. -/
theorem waiter_store_effect (db : Store) (cnt : Counters) (path modificationTime : String)
    (result : ClamResult) (md5 : Except String (List Nat)) (commitOk : Bool) :
    (result = ClamResult.ClamOK →
      (waiter db cnt path modificationTime result md5 commitOk).store.viruses = db.viruses ∧
      (∀ q, q ≠ path →
        (waiter db cnt path modificationTime result md5 commitOk).store.files q = db.files q) ∧
      (commitOk = true →
        (waiter db cnt path modificationTime result md5 commitOk).store.files path
          = some modificationTime) ∧
      (commitOk = false →
        (waiter db cnt path modificationTime result md5 commitOk).store.files = db.files)) ∧
    (result = ClamResult.ClamERR →
      (waiter db cnt path modificationTime result md5 commitOk).store.files = db.files ∧
      (waiter db cnt path modificationTime result md5 commitOk).store.viruses = db.viruses) ∧
    (result = ClamResult.ClamFOUND →
      (waiter db cnt path modificationTime result md5 commitOk).store.files = db.files ∧
      (∀ q, q ≠ path →
        (waiter db cnt path modificationTime result md5 commitOk).store.viruses q
          = db.viruses q) ∧
      (∀ hash, md5 = Except.ok hash → commitOk = true →
        (waiter db cnt path modificationTime result md5 commitOk).store.viruses path
          = some hash) ∧
      ((commitOk = false ∨ ∃ e, md5 = Except.error e) →
        (waiter db cnt path modificationTime result md5 commitOk).store.viruses
          = db.viruses)) := by
  refine ⟨?_, ?_, ?_⟩
  · rintro rfl
    cases commitOk <;> simp [waiter, Function.update_noteq]
    intro q hq
    exact Function.update_noteq hq _ _
  · rintro rfl
    simp [waiter]
  · rintro rfl
    cases md5 with
    | error e => cases commitOk <;> simp [waiter]
    | ok hash =>
      cases commitOk <;> simp [waiter]
      intro q hq
      exact Function.update_noteq hq _ _

/-! ## The cycle loop -/

/-- C7, at the failing input: the stop request arrives after `/watched/a` was
submitted and before `/watched/b` is visited. The walk returns `END` and the
goroutine signals done and returns: the waiter it spawned for `/watched/a` is
never waited for. -/
theorem iteration_abort_skips_wait :
    Walk 26214400 0 (some (StopPoint.beforeVisit 2)) emptyStore twoFileTree 0 ⟨0, []⟩
      = (⟨0, [("/watched/a", "t1")]⟩, WalkFnResult.END) ∧
    iteration 26214400 emptyStore twoFileTree (some (StopPoint.beforeVisit 2)) ⟨0, false⟩
      = ([Action.logBegin, Action.spawnWaiter "/watched/a", Action.signalDone], none) := by
  decide

/-- Whenever an iteration ends by signalling done, it has not waited for its
waiters. -/
theorem iteration_signalDone_without_wait (size : Int) (db : Store) (entries : List Entry)
    (stop : Option StopPoint) (s : LoopState)
    (h : Action.signalDone ∈ (iteration size db entries stop s).1) :
    Action.waitWaiters ∉ (iteration size db entries stop s).1 := by
  unfold iteration at h ⊢
  simp only at h ⊢
  split
  · cases hq : decide (s.quit = 0) <;> simp_all
  · cases hq : decide (s.quit = 0) <;> simp_all
  · rename_i r hEND hpanic
    exfalso
    split at h
    · contradiction
    · contradiction
    · cases hq : decide (s.quit = 0) <;> split at h <;> (try split at h) <;>
        simp_all [List.mem_append, List.mem_map]

theorem Walk_no_eligible (size quit : Int) (stop : Option StopPoint) (db : Store) :
    ∀ (entries : List Entry),
      (∀ e ∈ entries, ∃ info, e.info = some info ∧ (info.isDir = true ∨ info.size > size)) →
      ∀ (k : Nat) (st : CycleState),
        (Walk size quit stop db entries k st).2 = WalkFnResult.nil ∧
        (Walk size quit stop db entries k st).1.submitted = st.submitted := by
  intro entries
  induction entries with
  | nil => intro _ k st; simp [Walk]
  | cons e es ih =>
    intro h k st
    obtain ⟨info, hinfo, hdir⟩ := h e (List.mem_cons_self _ _)
    have hrest := ih (fun x hx => h x (List.mem_cons_of_mem _ hx))
    unfold Walk
    rcases hdir with hd | hs
    · simp only [walkFn, hinfo, hd, if_true]
      exact hrest (k + 1) st
    · cases hd : info.isDir with
      | true =>
        simp only [walkFn, hinfo, hd, if_true]
        exact hrest (k + 1) st
      | false =>
        simp only [walkFn, hinfo, hd, hs, if_true, Bool.false_eq_true, if_false]
        exact hrest (k + 1) _

theorem iteration_no_eligible (size : Int) (db : Store) (entries : List Entry)
    (stop : Option StopPoint) (s : LoopState)
    (h : ∀ e ∈ entries, ∃ info, e.info = some info ∧ (info.isDir = true ∨ info.size > size)) :
    (∃ s1, (iteration size db entries stop s).2 = some s1) ∧
    Action.signalDone ∉ (iteration size db entries stop s).1 := by
  obtain ⟨hnil, hsub⟩ := Walk_no_eligible size s.quit stop db entries h 0 ⟨0, []⟩
  unfold iteration
  simp only [hnil, hsub]
  constructor
  · split
    · exact ⟨_, rfl⟩
    · exact ⟨_, rfl⟩
    · split <;> exact ⟨_, rfl⟩
  · cases hq : decide (s.quit = 0) <;> split <;> (try split) <;> simp_all

/-- On a tree in which every entry is a directory or a file above the size
ceiling, the cycle loop never signals done, however long it runs and whenever
the stop request arrives. -/
theorem Start_never_signals_done (size : Int) (db : Nat → Store) (entries : List Entry)
    (stops : Nat → Option StopPoint)
    (h : ∀ e ∈ entries, ∃ info, e.info = some info ∧ (info.isDir = true ∨ info.size > size)) :
    ∀ (fuel i : Nat) (s : LoopState),
      Action.signalDone ∉ Start size db entries stops fuel i s := by
  intro fuel
  induction fuel with
  | zero => intro i s; simp [Start]
  | succ f ih =>
    intro i s
    obtain ⟨⟨s1, hs1⟩, hno⟩ := iteration_no_eligible size (db i) entries (stops i) s h
    unfold Start
    cases hit : iteration size (db i) entries (stops i) s with
    | mk acts next =>
      rw [hit] at hs1 hno
      simp only at hs1 hno
      subst hs1
      simp only [List.mem_append, not_or]
      exact ⟨hno, ih (i + 1) s1⟩

/-- C8, at the failing input: the tree is an empty root directory and the stop
request arrives during the sleep of the first cycle. The loop wakes, walks
again without reaching the check of the flag, sleeps for the whole interval,
and repeats: however many iterations it runs, it never signals done. -/
theorem Start_stop_in_sleep_never_done :
    Start 26214400 (fun _ => emptyStore) emptyTree stopInFirstSleep 2 0 ⟨0, false⟩
      = [Action.logBegin, Action.waitWaiters, Action.report, Action.wokenByQuitting,
         Action.waitWaiters, Action.report, Action.wokenByTimer] ∧
    ∀ fuel, Action.signalDone ∉
      Start 26214400 (fun _ => emptyStore) emptyTree stopInFirstSleep fuel 0 ⟨0, false⟩ := by
  refine ⟨by decide, fun fuel => ?_⟩
  apply Start_never_signals_done
  intro e he
  simp only [emptyTree, List.mem_singleton] at he
  subst he
  exact ⟨_, rfl, Or.inl rfl⟩

/-- When the stop request arrives during the sleep and the tree holds a regular
file within the ceiling, the next walk returns `END` at that file and the loop
signals done then. -/
theorem Start_stop_in_sleep_with_file :
    Start 26214400 (fun _ => emptyStore) twoFileTree stopInFirstSleep 2 0 ⟨0, false⟩
      = [Action.logBegin, Action.spawnWaiter "/watched/a", Action.spawnWaiter "/watched/b",
         Action.waitWaiters, Action.report, Action.wokenByQuitting, Action.signalDone] := by
  decide

/-! ## The dispatcher and the workers -/

theorem QInv_qinit : QInv qinit := by
  simp [QInv, qinit, WorkerPc.isProcessing]

theorem qstep_preserves (n : Nat) (s s1 : QueueState) (a : QStep)
    (hinv : QInv s) (h : qstep n s a = some s1) : QInv s1 := by
  obtain ⟨hnd, hidle, hheld, hstop, hbusy⟩ := hinv
  cases a with
  | submit job =>
    simp only [qstep] at h
    split at h
    · cases h
      exact ⟨hnd, hidle, hheld, hstop, hbusy⟩
    · cases h
  | takeJob =>
    simp only [qstep] at h
    split at h
    · rename_i job rest hd hi
      cases h
      refine ⟨hnd, hidle, ?_, ?_, hbusy⟩
      · intro job1 h1 hc
        cases hc
      · intro i hi1
        rcases hstop i hi1 with ⟨k, hk⟩ | hk <;> rw [hd] at hk <;> cases hk
    · cases h
  | takeQuit =>
    simp only [qstep] at h
    split at h
    · cases h
      refine ⟨hnd, hidle, ?_, ?_, hbusy⟩
      · intro job1 h1 hc
        cases hc
      · intro i _
        exact Or.inl ⟨0, rfl⟩
    · cases h
  | checkoutWorker =>
    simp only [qstep] at h
    split at h
    · rename_i job w rest hd hr
      cases h
      rw [hr] at hnd hidle
      have hnot : ∀ i, s.workers i ≠ WorkerPc.stopped := by
        intro i hi1
        rcases hstop i hi1 with ⟨k, hk⟩ | hk <;> rw [hd] at hk <;> cases hk
      refine ⟨(List.nodup_cons.mp hnd).2,
        fun i hi => hidle i (List.mem_cons_of_mem _ hi), ?_, ?_, hbusy⟩
      · intro job1 h1 hc
        cases hc
        refine ⟨(List.nodup_cons.mp hnd).1, ?_⟩
        rcases hidle w (List.mem_cons_self _ _) with hw | hw
        · exact hw
        · exact absurd hw (hnot w)
      · intro i hi1
        exact absurd hi1 (hnot i)
    · cases h
  | handoff =>
    simp only [qstep] at h
    split at h
    · rename_i job w hd
      split at h
      · rename_i hw
        cases h
        obtain ⟨hnotin, _⟩ := hheld job w hd
        have hnot : ∀ i, s.workers i ≠ WorkerPc.stopped := by
          intro i hi1
          rcases hstop i hi1 with ⟨k, hk⟩ | hk <;> rw [hd] at hk <;> cases hk
        refine ⟨hnd, ?_, ?_, ?_, ?_⟩
        · intro i hi
          have hne : i ≠ w := fun e => hnotin (e ▸ hi)
          simp only [Function.update_noteq hne]
          exact hidle i hi
        · intro job1 h1 hc
          cases hc
        · intro i hi1
          by_cases hiw : i = w
          · subst hiw
            simp at hi1
          · simp only [Function.update_noteq hiw] at hi1
            exact absurd hi1 (hnot i)
        · intro i
          by_cases hiw : i = w
          · subst hiw
            have hb := hbusy i
            rw [hw] at hb
            simp [WorkerPc.isProcessing] at hb ⊢
            exact hb
          · simp only [Function.update_noteq hiw]
            exact hbusy i
      · cases h
    · cases h
  | stopWorker =>
    simp only [qstep] at h
    split at h
    · rename_i w hd
      split at h
      · rename_i hw
        cases h
        refine ⟨hnd, ?_, ?_, ?_, ?_⟩
        · intro i hi
          by_cases hiw : i = w
          · subst hiw
            simp
          · simp only [Function.update_noteq hiw]
            exact hidle i hi
        · intro job1 h1 hc
          cases hc
        · intro i _
          exact Or.inl ⟨_, rfl⟩
        · intro i
          by_cases hiw : i = w
          · subst hiw
            have hb := hbusy i
            rw [hw.2] at hb
            simp [WorkerPc.isProcessing] at hb ⊢
            exact hb
          · simp only [Function.update_noteq hiw]
            exact hbusy i
      · cases h
    · cases h
  | finishStop =>
    simp only [qstep] at h
    split at h
    · split at h
      · cases h
        refine ⟨hnd, hidle, ?_, ?_, hbusy⟩
        · intro job1 h1 hc
          cases hc
        · intro i _
          exact Or.inr rfl
      · cases h
    · cases h
  | register w =>
    simp only [qstep] at h
    split at h
    · rename_i hw
      cases h
      have hnotin : w ∉ s.ready := by
        intro hin
        rcases hidle w hin with e | e <;> rw [hw.2.1] at e <;> cases e
      refine ⟨?_, ?_, ?_, ?_, ?_⟩
      · exact List.Nodup.append hnd (List.nodup_singleton w)
          (by
            intro x hx hxw
            rw [List.mem_singleton.mp hxw] at hx
            exact hnotin hx)
      · intro i hi
        by_cases hiw : i = w
        · subst hiw
          simp
        · simp only [Function.update_noteq hiw]
          rcases List.mem_append.mp hi with hi1 | hi1
          · exact hidle i hi1
          · exact absurd (List.mem_singleton.mp hi1) hiw
      · intro job1 h1 hc
        obtain ⟨hn1, hw1⟩ := hheld job1 h1 hc
        have hne : h1 ≠ w := by
          rintro rfl
          rw [hw.2.1] at hw1
          cases hw1
        refine ⟨?_, ?_⟩
        · simp only [List.mem_append, List.mem_singleton, not_or]
          exact ⟨hn1, hne⟩
        · simp only [Function.update_noteq hne]
          exact hw1
      · intro i hi1
        by_cases hiw : i = w
        · subst hiw
          simp at hi1
        · simp only [Function.update_noteq hiw] at hi1
          exact hstop i hi1
      · intro i
        by_cases hiw : i = w
        · subst hiw
          have hb := hbusy i
          rw [hw.2.1] at hb
          simp [WorkerPc.isProcessing] at hb ⊢
          exact hb
        · simp only [Function.update_noteq hiw]
          exact hbusy i
    · cases h
  | finish w =>
    simp only [qstep] at h
    split at h
    · rename_i job hw
      cases h
      refine ⟨hnd, ?_, ?_, ?_, ?_⟩
      · intro i hi
        have hne : i ≠ w := by
          rintro rfl
          rcases hidle i hi with e | e <;> rw [hw] at e <;> cases e
        simp only [Function.update_noteq hne]
        exact hidle i hi
      · intro job1 h1 hc
        obtain ⟨hn1, hw1⟩ := hheld job1 h1 hc
        have hne : h1 ≠ w := by
          rintro rfl
          rw [hw] at hw1
          cases hw1
        simp only [Function.update_noteq hne]
        exact ⟨hn1, hw1⟩
      · intro i hi1
        by_cases hiw : i = w
        · subst hiw
          simp at hi1
        · simp only [Function.update_noteq hiw] at hi1
          exact hstop i hi1
      · intro i
        by_cases hiw : i = w
        · subst hiw
          have hb := hbusy i
          rw [hw] at hb
          simp [WorkerPc.isProcessing] at hb ⊢
          omega
        · simp only [Function.update_noteq hiw]
          exact hbusy i
    · cases h

theorem qrun_preserves (n : Nat) (steps : List QStep) :
    ∀ (s s1 : QueueState), QInv s → qrun n s steps = some s1 → QInv s1 := by
  induction steps with
  | nil =>
    intro s s1 hinv h
    simp only [qrun] at h
    cases h
    exact hinv
  | cons a rest ih =>
    intro s s1 hinv h
    simp only [qrun] at h
    cases hstep : qstep n s a with
    | none => simp [hstep] at h
    | some s2 =>
      rw [hstep] at h
      exact ih s2 s1 (qstep_preserves n s s2 a hinv hstep) h

/-- C10: in every state the queue reaches from its start, under any schedule
of the dispatcher, the workers, the submitters and the stop request: no worker
has more than one unfinished job; no worker's channel is twice in the registry;
a worker whose channel is in the registry has no job; the channel the
dispatcher is about to send on has been taken out of the registry and belongs
to a worker that is waiting in its `select` with no job; a worker that can
register has no job and is not yet in the registry; and a job is handed over
only to a worker with no job, which then has exactly one. -/
theorem queue_one_job_per_worker (n : Nat) (steps : List QStep) (s : QueueState)
    (hrun : qrun n qinit steps = some s) :
    (∀ i, s.busy i ≤ 1) ∧
    s.ready.Nodup ∧
    (∀ i ∈ s.ready, s.busy i = 0) ∧
    (∀ job h, s.dispatcher = DispatcherPc.handoff job h →
      h ∉ s.ready ∧ s.workers h = WorkerPc.waiting ∧ s.busy h = 0) ∧
    (∀ i s1, qstep n s (QStep.register i) = some s1 → s.busy i = 0 ∧ i ∉ s.ready) ∧
    (∀ s1, qstep n s QStep.handoff = some s1 →
      ∃ job h, s.dispatcher = DispatcherPc.handoff job h ∧ s.busy h = 0 ∧
        s1.busy h = 1 ∧ s1.workers h = WorkerPc.processing job) := by
  obtain ⟨hnd, hidle, hheld, hstop, hbusy⟩ := qrun_preserves n steps qinit s QInv_qinit hrun
  have hidle0 : ∀ i, s.workers i = WorkerPc.waiting ∨ s.workers i = WorkerPc.stopped ∨
      s.workers i = WorkerPc.registering → s.busy i = 0 := by
    intro i hi
    rw [hbusy i]
    rcases hi with e | e | e <;> rw [e] <;> rfl
  refine ⟨?_, hnd, ?_, ?_, ?_, ?_⟩
  · intro i
    rw [hbusy i]
    split <;> omega
  · intro i hi
    rcases hidle i hi with e | e
    · exact hidle0 i (Or.inl e)
    · exact hidle0 i (Or.inr (Or.inl e))
  · intro job h hd
    obtain ⟨h1, h2⟩ := hheld job h hd
    exact ⟨h1, h2, hidle0 h (Or.inl h2)⟩
  · intro i s1 hs
    simp only [qstep] at hs
    split at hs
    · rename_i hw
      refine ⟨hidle0 i (Or.inr (Or.inr hw.2.1)), ?_⟩
      intro hin
      rcases hidle i hin with e | e <;> rw [hw.2.1] at e <;> cases e
    · cases hs
  · intro s1 hs
    simp only [qstep] at hs
    split at hs
    · rename_i job w hd
      split at hs
      · rename_i hw
        cases hs
        refine ⟨job, w, hd, hidle0 w (Or.inl hw), ?_, ?_⟩
        · simp [hidle0 w (Or.inl hw)]
        · simp
      · cases hs
    · cases hs

theorem queue_one_job_per_worker_witness :
    ∃ s, qrun 2 qinit sampleSchedule = some s ∧
      s.workers 0 = WorkerPc.waiting ∧ s.workers 1 = WorkerPc.processing "/watched/b" ∧
      s.ready = [0] ∧ (∀ i, s.busy i ≤ 1) ∧ s.ready.Nodup :=
  ⟨_, rfl, rfl, rfl, rfl,
    (queue_one_job_per_worker 2 sampleSchedule _ rfl).1,
    (queue_one_job_per_worker 2 sampleSchedule _ rfl).2.1⟩

/-! ## The theorems at concrete inputs -/

theorem Process_wire_framing_witness :
    ∃ r, Process twoChunkEnv 3 = some r ∧
      r.wire = [110, 73, 78, 83, 84, 82, 69, 65, 77, 10]
        ++ (([0, 0, 8, 0] ++ List.replicate 2048 7) ++ (([0, 0, 0, 1] ++ [7])
        ++ [0, 0, 0, 0])) ∧
      (chunks (List.replicate 2049 7)).length = 2 := by
  have h0 : chunkAt (List.replicate 2049 7) 0 = List.replicate 2048 7 := by
    simp only [chunkAt, bufferSize, Nat.mul_zero, List.drop_zero, List.take_replicate]
    rfl
  have h1 : chunkAt (List.replicate 2049 7) 1 = [7] := by
    simp only [chunkAt, bufferSize, Nat.mul_one, List.drop_replicate, List.take_replicate]
    rfl
  have hc : chunks (List.replicate 2049 7) = [List.replicate 2048 7, [7]] := by
    unfold chunks
    rw [List.length_replicate]
    show [chunkAt _ 0, chunkAt _ 1] = _
    rw [h0, h1]
  have hfa : frame (List.replicate 2048 7) = [0, 0, 8, 0] ++ List.replicate 2048 7 := by
    simp only [frame, List.length_replicate]
    rfl
  have hfb : frame [7] = [0, 0, 0, 1] ++ [7] := rfl
  obtain ⟨r, hr, hw, _⟩ :=
    Process_wire_framing (List.replicate 2049 7) twoChunkEnv 3 rfl (fun _ => rfl) rfl
      (by rw [hc]; decide)
  refine ⟨r, hr, ?_, by rw [hc]; rfl⟩
  rw [hw, hc]
  simp only [List.map_cons, List.map_nil, List.flatten_cons, List.flatten_nil,
    List.append_nil, hfa, hfb, List.append_assoc]
  rfl

theorem Process_sends_exactly_one_witness :
    ∃ r, Process readErrorEnv 2 = some r ∧ r.sent.length = 1 ∧
      r = ⟨[ClamResult.ClamERR], instreamCommand ++ [0, 0, 0, 2]⟩ := by
  obtain ⟨r, hr⟩ := (Process_sends_exactly_one readErrorEnv 2).2.1 1 (by decide) (by decide)
  obtain ⟨h1, _, h3⟩ := (Process_sends_exactly_one readErrorEnv 2).1 r hr
  exact ⟨r, hr, h1, (h3 2 _ (by decide)).symm⟩

theorem walkFn_regular_file_witness :
    walkFn 100 0 cleanStore ⟨5, []⟩ "/watched/a" (some ⟨false, 101, "t1"⟩) none
      = (⟨6, []⟩, WalkFnResult.nil) ∧
    walkFn 100 0 cleanStore ⟨5, []⟩ "/watched/a" (some ⟨false, 10, "t1"⟩) none
      = (⟨6, []⟩, WalkFnResult.nil) ∧
    walkFn 100 0 cleanStore ⟨5, []⟩ "/watched/a" (some ⟨false, 10, "t2"⟩) none
      = (⟨5, [("/watched/a", "t2")]⟩, WalkFnResult.nil) ∧
    walkFn 100 0 cleanStore ⟨5, []⟩ "/watched/b" (some ⟨false, 10, "t1"⟩) none
      = (⟨5, [("/watched/b", "t1")]⟩, WalkFnResult.nil) :=
  ⟨((walkFn_regular_file 100 cleanStore ⟨5, []⟩ "/watched/a" ⟨false, 101, "t1"⟩ rfl).1
      (by decide)).1,
    ((walkFn_regular_file 100 cleanStore ⟨5, []⟩ "/watched/a" ⟨false, 10, "t1"⟩ rfl).2.1
      (by decide) (by decide)).1,
    ((walkFn_regular_file 100 cleanStore ⟨5, []⟩ "/watched/a" ⟨false, 10, "t2"⟩ rfl).2.2
      (by decide) (by decide)).1,
    ((walkFn_regular_file 100 cleanStore ⟨5, []⟩ "/watched/b" ⟨false, 10, "t1"⟩ rfl).2.2
      (by decide) (by decide)).1⟩

theorem waiter_store_effect_witness :
    (waiter emptyStore ⟨0, 0, 0⟩ "/watched/a" "t1" ClamResult.ClamOK
      (Except.ok []) true).store.files "/watched/a" = some "t1" :=
  ((waiter_store_effect emptyStore ⟨0, 0, 0⟩ "/watched/a" "t1" ClamResult.ClamOK
    (Except.ok []) true).1 rfl).2.2.1 rfl

end Glamscan
